import Mathlib

/-!
Verification of the real-time-forum WebSocket hub.

Shallow embedding of the `websocket` package of the real-time-forum
repository: the `Hub` event loop (`hub.go`, the variant whose `clients`
map is keyed by user ID), `broadcastUserStatus`, and the `Client`
read-pump stamping and `SendMessage` method (`client.go`).

Modelling conventions:
* Go `int` user IDs become `Int`; `string` fields become `String`.
* A `*Client` pointer is modelled by a `Client` record carrying a
  connection identifier `cid : Nat` standing for pointer identity, so
  that two distinct `Client` instances for the same user ID are
  distinguishable, exactly as two distinct Go allocations are.
* A Go buffered channel `send chan Message` (capacity 256, created in
  `NewClient`) becomes a `Mailbox`: a list of pending messages, a
  capacity, and an open/closed flag.  Channel state lives outside the
  `Client` value, in a `cid`-indexed store, because `close(c.send)`
  acts on the channel of a particular instance.
* The Go map `clients map[int]*Client` becomes an association list
  `List (Int × Client)`; Go maps cannot hold two entries for one key,
  which in the model is the invariant `KeysNodup`, proved to be
  maintained by the event loop.
* `select { case c.send <- m: default: ... }` on a buffered channel
  succeeds exactly when the buffer has room; the `default` branch of
  every such site in the hub closes the channel and deletes the map
  entry, which the model captures in `sendOrEvict`.
-/

namespace RealTimeForum

set_option maxRecDepth 40000

/-- `Message` structure from hub.go (JSON wire envelope). -/
structure Message where
  Type' : String
  From : Int
  To : Int
  Content : String
  Timestamp : String
  Username : String
  deriving DecidableEq, Repr

/-- A `*Client` from client.go: user identity, display name, and a
connection identifier `cid` standing for Go pointer identity. -/
structure Client where
  userID : Int
  username : String
  cid : Nat
  deriving DecidableEq, Repr

/-- State of one `send chan Message` buffered channel. -/
structure Mailbox where
  msgs : List Message
  cap : Nat
  isOpen : Bool
  deriving DecidableEq, Repr

/-- Hub state: the `clients map[int]*Client` as an association list
keyed by user ID, together with the channel store indexed by `cid`. -/
structure HubState where
  clients : List (Int × Client)
  mail : Nat → Mailbox

/-- Go map read `h.clients[k]`. -/
def lookupKey : List (Int × Client) → Int → Option Client
  | [], _ => none
  | p :: t, k => if p.1 = k then some p.2 else lookupKey t k

/-- Go `delete(h.clients, k)`. -/
def eraseKey : List (Int × Client) → Int → List (Int × Client)
  | [], _ => []
  | p :: t, k => if p.1 = k then t else p :: eraseKey t k

/-- Go map assignment `h.clients[k] = v` (replace or add). -/
def insertKey : List (Int × Client) → Int → Client → List (Int × Client)
  | [], k, v => [(k, v)]
  | p :: t, k, v => if p.1 = k then (k, v) :: t else p :: insertKey t k v

/-- Append a message to the channel buffer at `cid`. -/
def pushMail (mail : Nat → Mailbox) (cid : Nat) (m : Message) (x : Nat) : Mailbox :=
  if x = cid then { mail cid with msgs := (mail cid).msgs ++ [m] } else mail x

/-- Go `close(c.send)` for the channel at `cid`. -/
def closeMail (mail : Nat → Mailbox) (cid : Nat) (x : Nat) : Mailbox :=
  if x = cid then { mail cid with isOpen := false } else mail x

/-- The non-blocking deposit pattern used at every delivery site of the
hub loop:

```go
select {
case c.send <- message:
default:
    close(c.send)
    delete(h.clients, c.userID)
}
```

A buffered-channel send is ready exactly when the buffer has room; the
`default` branch closes the channel and evicts the entry. -/
def sendOrEvict (s : HubState) (c : Client) (m : Message) : HubState :=
  if (s.mail c.cid).msgs.length < (s.mail c.cid).cap then
    { s with mail := pushMail s.mail c.cid m }
  else
    { clients := eraseKey s.clients c.userID, mail := closeMail s.mail c.cid }

/-- The status envelope literal built in `broadcastUserStatus`; Go
leaves `To`, `Content`, `Timestamp` at their zero values. -/
def userStatusMessage (isOnline : Bool) (userID : Int) (username : String) : Message :=
  { Type' := if isOnline then "user_online" else "user_offline"
    From := userID
    To := 0
    Content := ""
    Timestamp := ""
    Username := username }

/-- `broadcastUserStatus` from hub.go: build the status envelope and
attempt a non-blocking deposit into every currently-registered client's
channel (the range snapshot is the current entry list; a `default`
branch deletes only the entry being visited). -/
def broadcastUserStatus (s : HubState) (userID : Int) (username : String)
    (isOnline : Bool) : HubState :=
  let statusMessage := userStatusMessage isOnline userID username
  s.clients.foldl (fun st p => sendOrEvict st p.2 statusMessage) s

/-- The `case client := <-h.register` arm of `Hub.Run`: insert into the
map keyed by user ID, then notify all clients that the user is online. -/
def registerClient (s : HubState) (c : Client) : HubState :=
  let s1 : HubState := { s with clients := insertKey s.clients c.userID c }
  broadcastUserStatus s1 c.userID c.username true

/-- The `case client := <-h.unregister` arm of `Hub.Run`: if an entry
exists for the client's user ID, delete it, close this client's channel,
and notify all clients that the user is offline. -/
def unregisterClient (s : HubState) (c : Client) : HubState :=
  match lookupKey s.clients c.userID with
  | some _ =>
      let s1 : HubState :=
        { clients := eraseKey s.clients c.userID, mail := closeMail s.mail c.cid }
      broadcastUserStatus s1 c.userID c.username false
  | none => s

/-- The `case message := <-h.broadcast` arm of `Hub.Run`: switch on the
message type.  `private_message` deposits to the recipient looked up by
`To` (if registered), then deposits a copy retyped `message_sent` to the
sender looked up by `From` (if registered).  `broadcast` deposits to
every registered client except the sender.  Unknown types do nothing. -/
def routeMessage (s : HubState) (message : Message) : HubState :=
  if message.Type' = "private_message" then
    let s1 :=
      match lookupKey s.clients message.To with
      | some recipient => sendOrEvict s recipient message
      | none => s
    match lookupKey s1.clients message.From with
    | some sender => sendOrEvict s1 sender { message with Type' := "message_sent" }
    | none => s1
  else if message.Type' = "broadcast" then
    s.clients.foldl
      (fun st p => if p.1 ≠ message.From then sendOrEvict st p.2 message else st) s
  else
    s

/-- One event received on one of the hub's three channels. -/
inductive HubEvent where
  | register (c : Client)
  | unregister (c : Client)
  | broadcast (m : Message)
  deriving DecidableEq, Repr

/-- One iteration of the `select` in `Hub.Run`. -/
def step (s : HubState) : HubEvent → HubState
  | .register c => registerClient s c
  | .unregister c => unregisterClient s c
  | .broadcast m => routeMessage s m

/-- `NewHub` state: empty map; every connection identifier is backed by
a fresh open channel of capacity 256 (`NewClient` buffer size). -/
def initState : HubState :=
  { clients := [], mail := fun _ => { msgs := [], cap := 256, isOpen := true } }

/-- Run the hub event loop over a sequence of received events. -/
def runHub (s : HubState) (events : List HubEvent) : HubState :=
  events.foldl step s

/-- The stamping performed by `Client.ReadPump` on each decoded inbound
envelope before forwarding it to the hub:

```go
message.From = c.userID
message.Username = c.username
message.Timestamp = time.Now().Format(time.RFC3339)
```

`now` is the formatted server receipt time. -/
def readPumpForward (c : Client) (now : String) (message : Message) : Message :=
  { message with From := c.userID, Username := c.username, Timestamp := now }

/-- `Client.SendMessage` from client.go — note that it mutates the
hub's `clients` map directly from the calling task:

```go
select {
case c.send <- message:
default:
    close(c.send)
    delete(c.hub.clients, c.userID)
}
``` -/
def sendMessageMethod (s : HubState) (c : Client) (message : Message) : HubState :=
  if (s.mail c.cid).msgs.length < (s.mail c.cid).cap then
    { s with mail := pushMail s.mail c.cid message }
  else
    { clients := eraseKey s.clients c.userID, mail := closeMail s.mail c.cid }

/-! ## Helper lemmas: the association list as a Go map -/

/-- The defining property of a Go map: no two entries share a key. -/
abbrev KeysNodup (l : List (Int × Client)) : Prop :=
  (l.map Prod.fst).Nodup

/-- Number of registered connections for one identity. -/
def countForIdentity (l : List (Int × Client)) (uid : Int) : Nat :=
  l.countP (fun p => decide (p.1 = uid))

theorem mem_keys_insertKey (l : List (Int × Client)) (k : Int) (v : Client) (x : Int) :
    x ∈ (insertKey l k v).map Prod.fst ↔ x = k ∨ x ∈ l.map Prod.fst := by
  induction l with
  | nil => simp [insertKey]
  | cons p t ih =>
      by_cases hpk : p.1 = k
      · subst hpk
        simp [insertKey]
      · simp only [insertKey, if_neg hpk, List.map_cons, List.mem_cons, ih]
        tauto

theorem keysNodup_insertKey (l : List (Int × Client)) (k : Int) (v : Client)
    (h : KeysNodup l) : KeysNodup (insertKey l k v) := by
  induction l with
  | nil => simp [insertKey, KeysNodup]
  | cons p t ih =>
      simp only [KeysNodup, List.map_cons, List.nodup_cons] at h
      by_cases hpk : p.1 = k
      · subst hpk
        simpa [insertKey, KeysNodup] using h
      · have ht := ih h.2
        simp only [insertKey, if_neg hpk, KeysNodup, List.map_cons, List.nodup_cons]
        refine ⟨?_, ht⟩
        rw [mem_keys_insertKey]
        rintro (rfl | hx)
        · exact hpk rfl
        · exact h.1 hx

theorem eraseKey_sublist (l : List (Int × Client)) (k : Int) :
    List.Sublist (eraseKey l k) l := by
  induction l with
  | nil => simp [eraseKey]
  | cons p t ih =>
      by_cases hpk : p.1 = k
      · rw [eraseKey, if_pos hpk]
        exact List.sublist_cons_self p t
      · rw [eraseKey, if_neg hpk]
        exact ih.cons₂ p

theorem keysNodup_eraseKey (l : List (Int × Client)) (k : Int)
    (h : KeysNodup l) : KeysNodup (eraseKey l k) :=
  List.Nodup.sublist ((eraseKey_sublist l k).map Prod.fst) h

theorem lookupKey_eq_none_iff (l : List (Int × Client)) (k : Int) :
    lookupKey l k = none ↔ k ∉ l.map Prod.fst := by
  induction l with
  | nil => simp [lookupKey]
  | cons p t ih =>
      by_cases hpk : p.1 = k
      · simp [lookupKey, hpk]
      · simp only [lookupKey, if_neg hpk, List.map_cons, List.mem_cons, ih]
        have hne : ¬ k = p.1 := fun hkp => hpk hkp.symm
        tauto

theorem lookupKey_eraseKey_self (l : List (Int × Client)) (k : Int)
    (h : KeysNodup l) : lookupKey (eraseKey l k) k = none := by
  induction l with
  | nil => simp [eraseKey, lookupKey]
  | cons p t ih =>
      simp only [KeysNodup, List.map_cons, List.nodup_cons] at h
      by_cases hpk : p.1 = k
      · subst hpk
        simpa [eraseKey, lookupKey_eq_none_iff] using h.1
      · simp [eraseKey, hpk, lookupKey, ih h.2]

theorem lookupKey_eraseKey_of_none (l : List (Int × Client)) (k k' : Int)
    (h : lookupKey l k = none) : lookupKey (eraseKey l k') k = none := by
  rw [lookupKey_eq_none_iff] at h ⊢
  intro hx
  exact h (((eraseKey_sublist l k').map Prod.fst).mem hx)

theorem countForIdentity_le_one (l : List (Int × Client)) (uid : Int)
    (h : KeysNodup l) : countForIdentity l uid ≤ 1 := by
  induction l with
  | nil => simp [countForIdentity]
  | cons p t ih =>
      simp only [KeysNodup, List.map_cons, List.nodup_cons] at h
      rw [countForIdentity, List.countP_cons]
      by_cases hpk : p.1 = uid
      · have hz : t.countP (fun q => decide (q.1 = uid)) = 0 := by
          rw [List.countP_eq_zero]
          intro q hq
          simp only [decide_eq_true_eq]
          intro hq1
          refine h.1 ?_
          rw [hpk, ← hq1]
          exact List.mem_map_of_mem Prod.fst hq
        rw [hz]
        simp [hpk]
      · have ht := ih h.2
        rw [countForIdentity] at ht
        simpa [hpk] using ht

/-- Generic preservation of a state predicate along a fold. -/
theorem foldl_preserves {α : Type} (f : HubState → α → HubState) (P : HubState → Prop)
    (hf : ∀ st a, P st → P (f st a)) :
    ∀ (l : List α) (st : HubState), P st → P (l.foldl f st) := by
  intro l
  induction l with
  | nil => intro st h; exact h
  | cons a t ih => intro st h; exact ih (f st a) (hf st a h)

theorem pushMail_isOpen (mail : Nat → Mailbox) (cid : Nat) (m : Message) (x : Nat) :
    ((pushMail mail cid m) x).isOpen = (mail x).isOpen := by
  by_cases hx : x = cid <;> simp [pushMail, hx]

theorem closeMail_isOpen_false (mail : Nat → Mailbox) (cid : Nat) (x : Nat)
    (h : (mail x).isOpen = false) : ((closeMail mail cid) x).isOpen = false := by
  by_cases hx : x = cid <;> simp [closeMail, hx, h]

theorem sendOrEvict_clients_cases (st : HubState) (c : Client) (m : Message) :
    (sendOrEvict st c m).clients = st.clients ∨
    (sendOrEvict st c m).clients = eraseKey st.clients c.userID := by
  by_cases hroom : (st.mail c.cid).msgs.length < (st.mail c.cid).cap
  · left; simp [sendOrEvict, hroom]
  · right; simp [sendOrEvict, hroom]

theorem sendOrEvict_keysNodup (st : HubState) (c : Client) (m : Message)
    (h : KeysNodup st.clients) : KeysNodup (sendOrEvict st c m).clients := by
  rcases sendOrEvict_clients_cases st c m with hc | hc <;> rw [hc]
  · exact h
  · exact keysNodup_eraseKey _ _ h

theorem sendOrEvict_preserves_none_closed (k : Int) (x : Nat)
    (st : HubState) (c : Client) (m : Message)
    (h : lookupKey st.clients k = none ∧ (st.mail x).isOpen = false) :
    lookupKey (sendOrEvict st c m).clients k = none ∧
      ((sendOrEvict st c m).mail x).isOpen = false := by
  by_cases hroom : (st.mail c.cid).msgs.length < (st.mail c.cid).cap
  · simp only [sendOrEvict, if_pos hroom]
    exact ⟨h.1, by rw [pushMail_isOpen]; exact h.2⟩
  · simp only [sendOrEvict, if_neg hroom]
    exact ⟨lookupKey_eraseKey_of_none _ _ _ h.1, closeMail_isOpen_false _ _ _ h.2⟩

/-! ## The event loop preserves the map invariant -/

theorem broadcastUserStatus_keysNodup (s : HubState) (uid : Int) (uname : String)
    (isOnline : Bool) (h : KeysNodup s.clients) :
    KeysNodup (broadcastUserStatus s uid uname isOnline).clients := by
  rw [broadcastUserStatus]
  exact foldl_preserves _ (fun st => KeysNodup st.clients)
    (fun st p hp => sendOrEvict_keysNodup st p.2 _ hp) s.clients s h

theorem step_keysNodup (s : HubState) (e : HubEvent)
    (h : KeysNodup s.clients) : KeysNodup (step s e).clients := by
  cases e with
  | register c =>
      exact broadcastUserStatus_keysNodup _ _ _ _
        (keysNodup_insertKey s.clients c.userID c h)
  | unregister c =>
      rw [step, unregisterClient]
      cases hl : lookupKey s.clients c.userID with
      | none => exact h
      | some d =>
          exact broadcastUserStatus_keysNodup _ _ _ _
            (keysNodup_eraseKey s.clients c.userID h)
  | broadcast m =>
      rw [step, routeMessage]
      by_cases hpm : m.Type' = "private_message"
      · rw [if_pos hpm]
        have h1 : ∀ s' : HubState, KeysNodup s'.clients → KeysNodup
            (match lookupKey s'.clients m.From with
             | some sender => sendOrEvict s' sender { m with Type' := "message_sent" }
             | none => s').clients := by
          intro s' hs'
          cases lookupKey s'.clients m.From with
          | none => exact hs'
          | some d => exact sendOrEvict_keysNodup s' d _ hs'
        cases lookupKey s.clients m.To with
        | none => exact h1 s h
        | some r => exact h1 _ (sendOrEvict_keysNodup s r m h)
      · rw [if_neg hpm]
        by_cases hbc : m.Type' = "broadcast"
        · rw [if_pos hbc]
          refine foldl_preserves _ (fun st => KeysNodup st.clients) ?_ s.clients s h
          intro st p hp
          by_cases hsender : p.1 ≠ m.From
          · rw [if_pos hsender]; exact sendOrEvict_keysNodup st p.2 m hp
          · rw [if_neg hsender]; exact hp
        · rw [if_neg hbc]; exact h

theorem runHub_keysNodup (events : List HubEvent) (s : HubState)
    (h : KeysNodup s.clients) : KeysNodup (runHub s events).clients := by
  rw [runHub]
  exact foldl_preserves step (fun st => KeysNodup st.clients)
    (fun st e hp => step_keysNodup st e hp) events s h

/-! ## Broadcast delivery characterisation (no eviction case) -/

/-- What a `for _, client := range h.clients { select ... }` broadcast
loop does when every targeted channel has room and targeted channels are
pairwise distinct: every listed client's buffer gains exactly the
broadcast message at the end, nothing else changes. -/
theorem broadcast_foldl_spec (msg : Message) (l : List (Int × Client)) :
    ∀ st : HubState,
      (l.map (fun p => p.2.cid)).Nodup →
      (∀ p ∈ l, (st.mail p.2.cid).msgs.length < (st.mail p.2.cid).cap) →
      (l.foldl (fun st p => sendOrEvict st p.2 msg) st).clients = st.clients ∧
      (∀ p ∈ l, (l.foldl (fun st p => sendOrEvict st p.2 msg) st).mail p.2.cid =
        { st.mail p.2.cid with msgs := (st.mail p.2.cid).msgs ++ [msg] }) ∧
      (∀ x, x ∉ l.map (fun p => p.2.cid) →
        (l.foldl (fun st p => sendOrEvict st p.2 msg) st).mail x = st.mail x) := by
  induction l with
  | nil =>
      intro st _ _
      refine ⟨rfl, ?_, ?_⟩ <;> simp
  | cons p t ih =>
      intro st hnd hroom
      simp only [List.map_cons, List.nodup_cons] at hnd
      have hroomp := hroom p (List.mem_cons_self p t)
      have hstep : sendOrEvict st p.2 msg =
          { st with mail := pushMail st.mail p.2.cid msg } := by
        rw [sendOrEvict, if_pos hroomp]
      have hmail_t : ∀ q ∈ t,
          (pushMail st.mail p.2.cid msg) q.2.cid = st.mail q.2.cid := by
        intro q hq
        have hne : q.2.cid ≠ p.2.cid := fun hEq =>
          hnd.1 (hEq ▸ List.mem_map_of_mem (fun p => p.2.cid) hq)
        rw [pushMail, if_neg hne]
      have hroom_t : ∀ q ∈ t,
          (({ st with mail := pushMail st.mail p.2.cid msg } : HubState).mail
            q.2.cid).msgs.length <
          (({ st with mail := pushMail st.mail p.2.cid msg } : HubState).mail
            q.2.cid).cap := by
        intro q hq
        dsimp only
        rw [hmail_t q hq]
        exact hroom q (List.mem_cons_of_mem p hq)
      obtain ⟨ihc, ihm, ihx⟩ :=
        ih { st with mail := pushMail st.mail p.2.cid msg } hnd.2 hroom_t
      rw [List.foldl_cons, hstep]
      refine ⟨ihc, ?_, ?_⟩
      · intro q hq
        rcases List.mem_cons.mp hq with rfl | hqt
        · rw [ihx q.2.cid hnd.1]
          dsimp only
          rw [pushMail, if_pos rfl]
        · rw [ihm q hqt]
          dsimp only
          rw [hmail_t q hqt]
      · intro x hx
        simp only [List.map_cons, List.mem_cons] at hx
        push_neg at hx
        rw [ihx x hx.2]
        dsimp only
        rw [pushMail, if_neg hx.1]

theorem self_mem_insertKey (l : List (Int × Client)) (k : Int) (v : Client) :
    (k, v) ∈ insertKey l k v := by
  induction l with
  | nil => simp [insertKey]
  | cons p t ih =>
      by_cases hpk : p.1 = k
      · simp [insertKey, hpk]
      · simp only [insertKey, if_neg hpk, List.mem_cons]
        exact Or.inr ih

/-- Routing a `private_message` whose recipient is not registered, when
the sender is registered with room in its channel: only the echo deposit
happens. -/
theorem routeMessage_absent_recipient (s : HubState) (m : Message) (d : Client)
    (ht : m.Type' = "private_message")
    (hto : lookupKey s.clients m.To = none)
    (hdd : lookupKey s.clients m.From = some d)
    (hroom : (s.mail d.cid).msgs.length < (s.mail d.cid).cap) :
    routeMessage s m =
      { s with mail := pushMail s.mail d.cid { m with Type' := "message_sent" } } := by
  unfold routeMessage
  rw [if_pos ht, hto]
  dsimp only
  rw [hdd]
  dsimp only
  unfold sendOrEvict
  rw [if_pos hroom]

/-! ## Example inputs used by witnesses and counterexamples -/

/-- First connection instance of user 1. -/
def connA : Client := ⟨1, "alice", 0⟩

/-- Second, newer connection instance of the same user 1. -/
def connB : Client := ⟨1, "alice", 1⟩

/-- A connection of user 2. -/
def connBob : Client := ⟨2, "bob", 1⟩

/-- Channel store in which every channel is open, empty, capacity 8. -/
def freshMail : Nat → Mailbox := fun _ => { msgs := [], cap := 8, isOpen := true }

/-- A private message from user 1 to user 2. -/
def msgHi : Message := ⟨"private_message", 1, 2, "hi", "t0", "alice"⟩

/-- User 1 registered; its channel buffer is full (256 of 256). -/
def fullMailState : HubState :=
  { clients := [(1, connA)]
    mail := fun _ => { msgs := List.replicate 256 msgHi, cap := 256, isOpen := true } }

/-- Users 1 and 2 registered, all channels fresh. -/
def twoClientState : HubState :=
  { clients := [(1, connA), (2, connBob)], mail := freshMail }

/-- Only the sender (user 1) registered, all channels fresh. -/
def soloSenderState : HubState :=
  { clients := [(1, connA)], mail := freshMail }

/-! ## Claim theorems -/

/-- C1 counterexample: the spec's own stale-unregister test fails on the
code.  Register identity 1 with `connA`, then with `connB` (replacing
`connA`), then process `Unregister(connA)`.  The claim says identity 1
is still registered, pointing at `connB`; the code deletes the entry
(the unregister arm checks only that *some* entry exists for the user
ID, never that it is this instance) and leaves `connB`'s channel open
and orphaned. -/
theorem stale_unregister_evicts_newer_connection :
    lookupKey (runHub initState
      [.register connA, .register connB, .unregister connA]).clients 1 = none ∧
    ((runHub initState
      [.register connA, .register connB, .unregister connA]).mail connB.cid).isOpen
      = true := by
  decide

/-- C1 (amended): `Unregister(conn)` removes the map entry for `conn`'s
identity and closes `conn`'s own channel whenever *any* entry exists for
that identity — the current entry need not be the same Connection
instance, so a stale unregister evicts a newer connection; only when no
entry exists is the state left unchanged. -/
theorem unregister_removes_any_current_entry (s : HubState) (c d : Client)
    (hn : KeysNodup s.clients)
    (h : lookupKey s.clients c.userID = some d) :
    lookupKey (unregisterClient s c).clients c.userID = none ∧
    ((unregisterClient s c).mail c.cid).isOpen = false := by
  unfold unregisterClient
  rw [h]
  dsimp only
  unfold broadcastUserStatus
  dsimp only
  refine foldl_preserves _
    (fun st => lookupKey st.clients c.userID = none ∧ (st.mail c.cid).isOpen = false)
    (fun st p hp => sendOrEvict_preserves_none_closed _ _ st p.2 _ hp) _ _ ?_
  constructor
  · exact lookupKey_eraseKey_self _ _ hn
  · dsimp only
    rw [closeMail, if_pos rfl]

/-- Witness for C1's amended theorem: a registry whose current entry for
user 1 is `connB` while the unregistering instance is `connA`. -/
theorem unregister_removes_any_current_entry_witness :
    lookupKey ({ clients := [(1, connB)], mail := freshMail } : HubState).clients
      connA.userID = some connB ∧
    lookupKey (unregisterClient
      { clients := [(1, connB)], mail := freshMail } connA).clients connA.userID
      = none :=
  ⟨by decide,
   (unregister_removes_any_current_entry
      { clients := [(1, connB)], mail := freshMail } connA connB
      (by decide) (by decide)).1⟩

/-- C2, code evaluated at the failing input: registering `connA` and
then `connB` for the same identity overwrites the map entry while
`connA`'s channel stays open — the register arm has no close of the
replaced Connection's channel. -/
theorem register_overwrites_without_closing_old_mailbox :
    lookupKey (runHub initState [.register connA, .register connB]).clients 1
      = some connB ∧
    ((runHub initState [.register connA, .register connB]).mail connA.cid).isOpen
      = true := by
  decide

/-- C4 counterexample: `Client.SendMessage` is a Connection method that
writes the hub's `clients` map directly from the calling task — on a
full channel it executes `delete(c.hub.clients, c.userID)` itself,
emptying the registry without going through any hub channel. -/
theorem sendMessage_writes_hub_map_directly :
    (sendMessageMethod fullMailState connA msgHi).clients = [] ∧
    fullMailState.clients = [(1, connA)] := by
  decide

/-- C4 (amended): the clients map is mutated by the hub loop, but also
directly by the externally callable `Client.SendMessage`: when the
client's channel is full it closes the channel and deletes the map
entry in the caller's task; when there is room it only appends to the
channel buffer. -/
theorem sendMessage_direct_map_mutation (s : HubState) (c : Client) (m : Message) :
    ((s.mail c.cid).msgs.length < (s.mail c.cid).cap →
      (sendMessageMethod s c m).clients = s.clients ∧
      ((sendMessageMethod s c m).mail c.cid).msgs = (s.mail c.cid).msgs ++ [m]) ∧
    (¬ (s.mail c.cid).msgs.length < (s.mail c.cid).cap →
      (sendMessageMethod s c m).clients = eraseKey s.clients c.userID ∧
      ((sendMessageMethod s c m).mail c.cid).isOpen = false) := by
  constructor
  · intro hroom
    unfold sendMessageMethod
    rw [if_pos hroom]
    refine ⟨rfl, ?_⟩
    dsimp only
    rw [pushMail, if_pos rfl]
  · intro hfull
    unfold sendMessageMethod
    rw [if_neg hfull]
    refine ⟨rfl, ?_⟩
    dsimp only
    rw [closeMail, if_pos rfl]

/-- Witness for C4's amended theorem at the full-channel input. -/
theorem sendMessage_direct_map_mutation_witness :
    ¬ (fullMailState.mail connA.cid).msgs.length < (fullMailState.mail connA.cid).cap ∧
    (sendMessageMethod fullMailState connA msgHi).clients
      = eraseKey fullMailState.clients connA.userID :=
  ⟨by decide,
   ((sendMessage_direct_map_mutation fullMailState connA msgHi).2 (by decide)).1⟩

/-- C3: along every sequence of hub events processed from the initial
state, the registry holds at most one Connection per user identity —
the `clients` map is keyed by user ID and every event-loop arm keeps
its keys duplicate-free. -/
theorem at_most_one_connection_per_identity (events : List HubEvent) (uid : Int) :
    countForIdentity (runHub initState events).clients uid ≤ 1 :=
  countForIdentity_le_one _ _
    (runHub_keysNodup events initState (by simp [initState, KeysNodup]))

/-- C5: routing a `private_message` to a registered recipient, with a
registered sender on a distinct connection and room in both channels,
deposits exactly the message at the end of the recipient's buffer,
exactly one `message_sent` echo at the end of the sender's buffer,
leaves every other channel untouched, and leaves the registry map
unchanged. -/
theorem private_message_exactly_one_delivery_and_echo (s : HubState) (m : Message)
    (r d : Client)
    (ht : m.Type' = "private_message")
    (hrr : lookupKey s.clients m.To = some r)
    (hdd : lookupKey s.clients m.From = some d)
    (hcid : r.cid ≠ d.cid)
    (hroomr : (s.mail r.cid).msgs.length < (s.mail r.cid).cap)
    (hroomd : (s.mail d.cid).msgs.length < (s.mail d.cid).cap) :
    (routeMessage s m).clients = s.clients ∧
    ((routeMessage s m).mail r.cid).msgs = (s.mail r.cid).msgs ++ [m] ∧
    ((routeMessage s m).mail d.cid).msgs =
      (s.mail d.cid).msgs ++ [{ m with Type' := "message_sent" }] ∧
    (∀ x, x ≠ r.cid → x ≠ d.cid → (routeMessage s m).mail x = s.mail x) := by
  have hd_ne_r : d.cid ≠ r.cid := fun hEq => hcid hEq.symm
  have h2 : pushMail s.mail r.cid m d.cid = s.mail d.cid := by
    rw [pushMail, if_neg hd_ne_r]
  have hroute : routeMessage s m =
      { clients := s.clients,
        mail := pushMail (pushMail s.mail r.cid m) d.cid
          { m with Type' := "message_sent" } } := by
    unfold routeMessage
    rw [if_pos ht, hrr]
    dsimp only
    unfold sendOrEvict
    rw [if_pos hroomr]
    dsimp only
    rw [hdd]
    dsimp only
    rw [h2, if_pos hroomd]
  rw [hroute]
  refine ⟨rfl, ?_, ?_, ?_⟩
  · dsimp only
    rw [pushMail, if_neg hcid, pushMail, if_pos rfl]
  · dsimp only
    rw [pushMail, if_pos rfl, h2]
  · intro x hxr hxd
    dsimp only
    rw [pushMail, if_neg hxd, pushMail, if_neg hxr]

/-- Witness for C5: users 1 and 2 registered on distinct connections,
user 1 sends "hi" to user 2: user 2's buffer receives the message. -/
theorem private_message_exactly_one_delivery_and_echo_witness :
    ((routeMessage twoClientState msgHi).mail connBob.cid).msgs =
      (twoClientState.mail connBob.cid).msgs ++ [msgHi] :=
  (private_message_exactly_one_delivery_and_echo twoClientState msgHi connBob connA
    (by decide) (by decide) (by decide) (by decide) (by decide) (by decide)).2.1

/-- C6 counterexample: registering `connA` into the empty hub deposits
the `user_online` status envelope into `connA`'s *own* channel — the
status broadcast ranges over all registered clients, which at that
point include the newly registered one, so the receiving set is not
"all other connections". -/
theorem register_presence_broadcast_reaches_new_connection :
    ((registerClient initState connA).mail connA.cid).msgs =
      [userStatusMessage true 1 "alice"] := by
  decide

/-- C6 (amended): after `Register(conn)` the `user_online` envelope is
broadcast to *every* registered connection, the newly registered one
included — when the targeted channels are pairwise distinct and all
have room, every entry of the updated map (and in particular `conn`
itself) gains exactly the status envelope, and no other channel
changes. -/
theorem register_broadcasts_online_to_all_registered (s : HubState) (c : Client)
    (hnd : ((insertKey s.clients c.userID c).map (fun p => p.2.cid)).Nodup)
    (hroom : ∀ p ∈ insertKey s.clients c.userID c,
      (s.mail p.2.cid).msgs.length < (s.mail p.2.cid).cap) :
    (registerClient s c).clients = insertKey s.clients c.userID c ∧
    (∀ p ∈ insertKey s.clients c.userID c,
      (registerClient s c).mail p.2.cid =
        { s.mail p.2.cid with msgs :=
            (s.mail p.2.cid).msgs ++ [userStatusMessage true c.userID c.username] }) ∧
    (registerClient s c).mail c.cid =
      { s.mail c.cid with msgs :=
          (s.mail c.cid).msgs ++ [userStatusMessage true c.userID c.username] } ∧
    (∀ x, x ∉ (insertKey s.clients c.userID c).map (fun p => p.2.cid) →
      (registerClient s c).mail x = s.mail x) := by
  have hreg : registerClient s c =
      (insertKey s.clients c.userID c).foldl
        (fun st p => sendOrEvict st p.2 (userStatusMessage true c.userID c.username))
        { s with clients := insertKey s.clients c.userID c } := rfl
  obtain ⟨hc, hm, hx⟩ := broadcast_foldl_spec
    (userStatusMessage true c.userID c.username) (insertKey s.clients c.userID c)
    { s with clients := insertKey s.clients c.userID c } hnd
    (fun p hp => hroom p hp)
  rw [hreg]
  exact ⟨hc, hm, hm (c.userID, c) (self_mem_insertKey s.clients c.userID c), hx⟩

/-- Witness for C6's amended theorem: user 2 already registered, user 1
registers; user 1's own channel receives the `user_online` envelope. -/
theorem register_broadcasts_online_to_all_registered_witness :
    (registerClient { clients := [(2, connBob)], mail := freshMail } connA).mail
      connA.cid =
    { ({ clients := [(2, connBob)], mail := freshMail } : HubState).mail connA.cid with
      msgs := (({ clients := [(2, connBob)], mail := freshMail } : HubState).mail
        connA.cid).msgs ++ [userStatusMessage true connA.userID connA.username] } :=
  (register_broadcasts_online_to_all_registered
    { clients := [(2, connBob)], mail := freshMail } connA
    (by decide) (by decide)).2.2.1

/-- C7: the read pump stamps `From`, `Username` and `Timestamp`
server-side from the connection's authenticated identity and the server
receipt time; two inbound frames that differ only in those
client-supplied fields are forwarded identically. -/
theorem readPump_stamps_server_identity (c : Client) (now : String) (m1 m2 : Message)
    (ht : m1.Type' = m2.Type') (hto : m1.To = m2.To) (hc : m1.Content = m2.Content) :
    readPumpForward c now m1 = readPumpForward c now m2 ∧
    (readPumpForward c now m1).From = c.userID ∧
    (readPumpForward c now m1).Username = c.username ∧
    (readPumpForward c now m1).Timestamp = now := by
  cases m1
  cases m2
  simp_all [readPumpForward]

/-- Witness for C7: two frames spoofing different `from`, `username`
and `timestamp` values forward identically through `connA`. -/
theorem readPump_stamps_server_identity_witness :
    readPumpForward connA "2026-01-01T00:00:00Z"
        ⟨"private_message", 99, 2, "hi", "fake-ts", "mallory"⟩ =
      readPumpForward connA "2026-01-01T00:00:00Z"
        ⟨"private_message", 7, 2, "hi", "later-ts", "other"⟩ :=
  (readPump_stamps_server_identity connA "2026-01-01T00:00:00Z"
    ⟨"private_message", 99, 2, "hi", "fake-ts", "mallory"⟩
    ⟨"private_message", 7, 2, "hi", "later-ts", "other"⟩ rfl rfl rfl).1

/-- C8: the registry's delivery primitive never waits: with room in the
target channel it appends the message and leaves the map alone, and
with the channel full it closes the channel and removes the connection
from the map in the same step. -/
theorem registry_deposit_nonblocking (s : HubState) (c : Client) (m : Message)
    (hn : KeysNodup s.clients) :
    ((s.mail c.cid).msgs.length < (s.mail c.cid).cap →
      (sendOrEvict s c m).clients = s.clients ∧
      ((sendOrEvict s c m).mail c.cid).msgs = (s.mail c.cid).msgs ++ [m]) ∧
    (¬ (s.mail c.cid).msgs.length < (s.mail c.cid).cap →
      (sendOrEvict s c m).clients = eraseKey s.clients c.userID ∧
      ((sendOrEvict s c m).mail c.cid).isOpen = false ∧
      lookupKey (sendOrEvict s c m).clients c.userID = none) := by
  constructor
  · intro hroom
    unfold sendOrEvict
    rw [if_pos hroom]
    refine ⟨rfl, ?_⟩
    dsimp only
    rw [pushMail, if_pos rfl]
  · intro hfull
    unfold sendOrEvict
    rw [if_neg hfull]
    refine ⟨rfl, ?_, ?_⟩
    · dsimp only
      rw [closeMail, if_pos rfl]
    · exact lookupKey_eraseKey_self _ _ hn

/-- Witness for C8 at the full-channel input: the slow consumer is
closed and evicted within the deposit step. -/
theorem registry_deposit_nonblocking_witness :
    ((sendOrEvict fullMailState connA msgHi).mail connA.cid).isOpen = false ∧
    lookupKey (sendOrEvict fullMailState connA msgHi).clients connA.userID = none :=
  ((registry_deposit_nonblocking fullMailState connA msgHi (by decide)).2
    (by decide)).2

/-- C9: routing a `private_message` whose `To` identity is not
registered delivers nothing: the registry map is unchanged and every
channel other than the sender's is untouched; the loop simply continues
(routing is a total function). -/
theorem unregistered_recipient_zero_deliveries (s : HubState) (m : Message)
    (d : Client)
    (ht : m.Type' = "private_message")
    (hto : lookupKey s.clients m.To = none)
    (hdd : lookupKey s.clients m.From = some d)
    (hroom : (s.mail d.cid).msgs.length < (s.mail d.cid).cap) :
    (routeMessage s m).clients = s.clients ∧
    (∀ x, x ≠ d.cid → (routeMessage s m).mail x = s.mail x) := by
  rw [routeMessage_absent_recipient s m d ht hto hdd hroom]
  refine ⟨rfl, ?_⟩
  intro x hx
  dsimp only
  rw [pushMail, if_neg hx]

/-- Witness for C9: user 1 sends to the unregistered user 2; the map is
unchanged. -/
theorem unregistered_recipient_zero_deliveries_witness :
    (routeMessage soloSenderState msgHi).clients = soloSenderState.clients :=
  (unregistered_recipient_zero_deliveries soloSenderState msgHi connA
    (by decide) (by decide) (by decide) (by decide)).1

/-- C10: even with the recipient unregistered, the sender still
receives the `message_sent` echo — the echo deposit depends only on the
sender being registered with room in its channel, not on the recipient
lookup succeeding. -/
theorem echo_deposited_despite_absent_recipient (s : HubState) (m : Message)
    (d : Client)
    (ht : m.Type' = "private_message")
    (hto : lookupKey s.clients m.To = none)
    (hdd : lookupKey s.clients m.From = some d)
    (hroom : (s.mail d.cid).msgs.length < (s.mail d.cid).cap) :
    ((routeMessage s m).mail d.cid).msgs =
      (s.mail d.cid).msgs ++ [{ m with Type' := "message_sent" }] := by
  rw [routeMessage_absent_recipient s m d ht hto hdd hroom]
  dsimp only
  rw [pushMail, if_pos rfl]

/-- Witness for C10: user 1 sends to the unregistered user 2 and still
gets the `message_sent` echo in its own channel. -/
theorem echo_deposited_despite_absent_recipient_witness :
    ((routeMessage soloSenderState msgHi).mail connA.cid).msgs =
      (soloSenderState.mail connA.cid).msgs ++
        [{ msgHi with Type' := "message_sent" }] :=
  echo_deposited_despite_absent_recipient soloSenderState msgHi connA
    (by decide) (by decide) (by decide) (by decide)

end RealTimeForum
